import Mathlib

/-!
Verification of the ChessMastery move-analysis core.

This file gives a shallow embedding of the analysis pipeline:

* the retry/backoff wrapper `analyzePosition` of `StockfishApiEngine`
  (modelled as a function of the per-attempt outcomes);
* the depth-1 best-move search and alternatives enumeration of
  `RealStockfishEngine`, with the chess.js board modelled as an explicit
  move-history state threaded through `move`/`undo`;
* the heuristic position evaluator `calculateStockfishStyleEvaluation`
  with its six components;
* the PGN extraction fallback of `StockfishApiEngine.analyzeCompleteGame`,
  including a backtracking matcher for its move-token pattern;
* the game-analysis loop of `StockfishApiEngine.analyzeCompleteGame`
  (record construction, transcript assembly, blunder scan), and the
  per-move blunder predicate of the Python `analyze_game` script.

The rules-of-chess capability (chess.js / python-chess) is external to the
repository and is modelled abstractly: move legality, legal-move lists and
PGN parsing are taken as parameters.  JavaScript numbers are modelled as
`ℚ` (the values involved are exact decimals) and `Math.round x` as
Mathlib's `round`, that is `⌊x + 1/2⌋`, which agrees with JavaScript on
all ties-go-up cases.
-/

-- Equality of `Except` results is decidable componentwise; used to
-- evaluate the model on concrete runs.
deriving instance DecidableEq for Except

/-! ## String helpers (JavaScript `includes`, `padEnd`, `trim`, `toFixed`) -/

/-- Does the character list start with the given pattern list? -/
def startsWithL : List Char → List Char → Bool
  | _, [] => true
  | [], _ :: _ => false
  | c :: cs, p :: ps => c == p && startsWithL cs ps

/-- Does the character list contain the pattern list as a contiguous run? -/
def hasSub : List Char → List Char → Bool
  | [], pat => pat.isEmpty
  | c :: rest, pat => startsWithL (c :: rest) pat || hasSub rest pat

/-- JavaScript `s.includes(pat)`. -/
def strIncludes (s pat : String) : Bool :=
  hasSub s.toList pat.toList

/-- Split a character list at newlines (JavaScript `split('\n')`):
accumulates the current segment reversed. -/
def splitNlAux : List Char → List Char → List (List Char)
  | [], acc => [acc.reverse]
  | c :: rest, acc =>
      if c = '\n' then acc.reverse :: splitNlAux rest []
      else splitNlAux rest (c :: acc)

/-- JavaScript `s.split('\n')`. -/
def jsSplitNl (s : String) : List String :=
  (splitNlAux s.toList []).map (fun t => String.mk t)

/-- JavaScript `s.trim()`: strip leading and trailing whitespace. -/
def jsTrim (s : String) : String :=
  String.mk
    (((s.toList.dropWhile (fun c => c.isWhitespace)).reverse.dropWhile
      (fun c => c.isWhitespace)).reverse)

/-- JavaScript `s.padEnd(7)`: pad with spaces on the right up to width 7. -/
def padEnd7 (s : String) : String :=
  s ++ String.mk (List.replicate (7 - s.length) ' ')

/-- Decimal rendering of the nonnegative rational `q` with two fraction
digits, rounding to nearest with ties away from zero on the magnitude,
as the ECMAScript `toFixed(2)` algorithm does after taking `|q|`. -/
def qToFixed2Abs (q : ℚ) : String :=
  let n : ℤ := round (100 * q)
  toString (n.toNat / 100) ++ "." ++
    (if n.toNat % 100 < 10 then "0" else "") ++ toString (n.toNat % 100)

/-- JavaScript `q.toFixed(2)`: a leading minus sign for negative inputs,
then the two-digit rendering of the magnitude. -/
def qToFixed2 (q : ℚ) : String :=
  if q < 0 then "-" ++ qToFixed2Abs (-q) else qToFixed2Abs q

/-! ## Remote evaluation call: `StockfishApiEngine.analyzePosition`

One logical call makes up to `maxRetries + 1 = 3` attempts.  Each attempt
has one of four outcomes: the fetch succeeds and the JSON parses
(`response`), the HTTP status is not ok (`httpError`), or the fetch itself
throws, e.g. on the 15 s abort (`fetchError`).  An application-level
failure is a `response` whose `success` flag is false. -/

/-- The parsed JSON of the stockfish.online response, as declared by the
`StockfishApiAnalysis` interface. -/
structure StockfishApiAnalysis where
  success : Bool
  evaluation : ℚ
  mate : Option ℤ
  bestmove : String
deriving DecidableEq

/-- Outcome of one fetch attempt inside `analyzePosition`. -/
inductive AttemptOutcome where
  | response (data : StockfishApiAnalysis)
  | httpError (status : Nat)
  | fetchError (msg : String)
deriving DecidableEq

/-- Result of one logical `analyzePosition` call: the returned analysis, or
the message of the error finally thrown. -/
inductive CallResult where
  | success (a : StockfishApiAnalysis)
  | failure (msg : String)
deriving DecidableEq

/-- `const maxRetries = 2`. -/
def maxRetries : Nat := 2

/-- `const baseDelay = 600`. -/
def baseDelay : Nat := 600

/-- The message of the error thrown by `analyzePosition` once no further
retry is made. -/
def apiFailMsg : String := "Failed to analyze position with Stockfish API"

/-- `StockfishApiEngine.analyzePosition(fen, retryCount)`, as a function of
the successive attempt outcomes.  Returns the call result together with
the list of observed retry delays in milliseconds.

* HTTP error: retried while `retryCount < maxRetries` with delay
  `baseDelay + retryCount * 200`; otherwise the thrown
  `API request failed: status` error is caught by the function's own
  `catch`, whose message test prevents a further retry, so the generic
  error is thrown.
* unsuccessful response: same shape, with the `unsuccessful response`
  message test.
* fetch error: retried only when the message contains neither marker.
* successful response: returned immediately. -/
def analyzePosition : List AttemptOutcome → Nat → CallResult × List Nat
  | [], _ => (.failure apiFailMsg, [])
  | o :: rest, retryCount =>
    match o with
    | .response data =>
      if data.success then
        (.success data, [])
      else if retryCount < maxRetries then
        let d := baseDelay + retryCount * 200
        let r := analyzePosition rest (retryCount + 1)
        (r.1, d :: r.2)
      else
        (.failure apiFailMsg, [])
    | .httpError _ =>
      if retryCount < maxRetries then
        let d := baseDelay + retryCount * 200
        let r := analyzePosition rest (retryCount + 1)
        (r.1, d :: r.2)
      else
        (.failure apiFailMsg, [])
    | .fetchError msg =>
      if retryCount < maxRetries
          && !strIncludes msg "API request failed:"
          && !strIncludes msg "unsuccessful response" then
        let d := baseDelay + retryCount * 200
        let r := analyzePosition rest (retryCount + 1)
        (r.1, d :: r.2)
      else
        (.failure apiFailMsg, [])

/-- An attempt outcome on which `analyzePosition` retries, provided the
retry budget is not exhausted. -/
def retryableOutcome : AttemptOutcome → Bool
  | .response data => !data.success
  | .httpError _ => true
  | .fetchError msg =>
      !strIncludes msg "API request failed:"
        && !strIncludes msg "unsuccessful response"

/-- An attempt outcome that does not produce a successful result. -/
def outcomeFails : AttemptOutcome → Bool
  | .response data => !data.success
  | .httpError _ => true
  | .fetchError _ => true

/-! ## The chess.js board, modelled as an explicit move-history state

`RealStockfishEngine` mutates one `Chess` object through `chess.move` /
`chess.undo` while searching.  We model the object's position as the list
of moves applied since the position the engine was given, so that
`chess.undo()` pops the most recent move. -/

/-- A verbose move object as returned by `chess.moves({verbose: true})`:
the fields read by the engine. -/
structure VerboseMove where
  san : String
  flags : String
  piece : Char
  toSq : String
  captured : Option Char
deriving DecidableEq

/-- The mutable chess.js position: the moves pushed since the base
position. -/
structure Board where
  hist : List VerboseMove
deriving DecidableEq

/-- `chess.move(m)`. -/
def chessMove (b : Board) (m : VerboseMove) : Board :=
  ⟨b.hist ++ [m]⟩

/-- `chess.undo()`. -/
def chessUndo (b : Board) : Board :=
  ⟨b.hist.dropLast⟩

/-- The capabilities the search reads from the rules component and the
evaluator: the verbose legal-move list of a position, and the evaluation
of a position. -/
structure EngineCap where
  movesOf : Board → List VerboseMove
  evalOf : Board → ℤ

/-- The pure loop body of `findBestMoveUsingEvaluation`, with
`bestEvaluation = -Infinity` modelled as `none`: a candidate replaces the
incumbent exactly when its negated evaluation is strictly greater. -/
def bestStep (negEval : VerboseMove → ℤ) (acc : VerboseMove × Option ℤ)
    (m : VerboseMove) : VerboseMove × Option ℤ :=
  let e := negEval m
  match acc.2 with
  | none => (m, some e)
  | some be => if be < e then (m, some e) else acc

/-- `RealStockfishEngine.findBestMoveUsingEvaluation`, value level: given
the legal moves and the negated evaluation of the position reached by
each move, fold the update over every move starting from
`bestMove = moves[0]`, `bestEvaluation = -Infinity`; return `'none'` on an
empty move list. -/
def findBestMoveUsingEvaluation (moves : List VerboseMove)
    (negEval : VerboseMove → ℤ) : String :=
  match moves with
  | [] => "none"
  | m0 :: _ => ((moves.foldl (bestStep negEval) (m0, none)).1).san

/-- The loop body of `findBestMoveUsingEvaluation` with the board state
threaded: the candidate is pushed, the resulting position evaluated and
negated, the candidate undone, and then the incumbent is compared. -/
def bestStepSt (cap : EngineCap) (acc : VerboseMove × Option ℤ × Board)
    (m : VerboseMove) : VerboseMove × Option ℤ × Board :=
  let b1 := chessMove acc.2.2 m
  let e := -cap.evalOf b1
  let b2 := chessUndo b1
  match acc.2.1 with
  | none => (m, some e, b2)
  | some be => if be < e then (m, some e, b2) else (acc.1, some be, b2)

/-- `RealStockfishEngine.findBestMoveUsingEvaluation`, state level: each
candidate is pushed on the board, evaluated, negated, and undone before
the comparison.  Returns the chosen SAN together with the board after the
call. -/
def findBestMoveSt (cap : EngineCap) (b : Board) : String × Board :=
  let moves := cap.movesOf b
  match moves with
  | [] => ("none", b)
  | m0 :: _ =>
    let r := moves.foldl (bestStepSt cap) (m0, none, b)
    (r.1.san, r.2.2)

/-- `RealStockfishEngine.describeMoveType`. -/
def describeMoveType (m : VerboseMove) : String :=
  if strIncludes m.flags "c" then "Capture"
  else if strIncludes m.flags "+" then "Check"
  else if strIncludes m.flags "k" || strIncludes m.flags "q" then "Castling"
  else if m.piece = 'p' then "Pawn advance"
  else "Development"

/-- One step of `getTopAlternativesWithEvaluation`: push the candidate,
evaluate and negate, undo, and append the
`{move, evaluation, description}` entry. -/
def altStepSt (cap : EngineCap) (acc : List (String × ℤ × String) × Board)
    (m : VerboseMove) : List (String × ℤ × String) × Board :=
  let b1 := chessMove acc.2 m
  let e := -cap.evalOf b1
  let b2 := chessUndo b1
  (acc.1 ++ [(m.san, e, describeMoveType m)], b2)

/-- `RealStockfishEngine.getTopAlternativesWithEvaluation`, state level:
the first three legal moves, in order, each mapped through
`altStepSt`. -/
def getTopAlternativesSt (cap : EngineCap) (b : Board) :
    List (String × ℤ × String) × Board :=
  ((cap.movesOf b).take 3).foldl (altStepSt cap) ([], b)

/-! ## The heuristic evaluator `calculateStockfishStyleEvaluation`

The chess.js position data the evaluator reads: the 8×8 grid returned by
`chess.board()` (row 0 = rank 8), the side to move, the check flag, the
four castling rights, and the verbose legal-move list in the rules
component's enumeration order.  The structure also carries state the
evaluator never reads — the game history and the process's stream of
`Math.random()` draws — so that determinism across calls is a real
statement about which state the result depends on. -/

/-- A piece of the chess.js board grid. -/
structure Piece where
  pieceType : Char
  color : Char
deriving DecidableEq

/-- The position state visible to `RealStockfishEngine`. -/
structure ChessPos where
  board : List (List (Option Piece))
  turn : Char
  inCheckFlag : Bool
  castleWk : Bool
  castleWq : Bool
  castleBk : Bool
  castleBq : Bool
  legalMoves : List VerboseMove
  moveNumberVal : Nat
  history : List String
  rngStream : List ℚ
deriving DecidableEq

/-- The piece-value table shared by `getMaterialBalance` and
`getPieceValue` (`values[piece] || 0`). -/
def pieceVal : Char → ℤ
  | 'p' => 100
  | 'n' => 320
  | 'b' => 330
  | 'r' => 500
  | 'q' => 900
  | _ => 0

/-- `board[rank][file]` on the grid, out-of-range reads giving no piece. -/
def cellAt (b : List (List (Option Piece))) (r f : Nat) : Option Piece :=
  (b.getD r []).getD f none

/-- `RealStockfishEngine.getMaterialBalance`: signed piece values summed
over the 8×8 grid. -/
def getMaterialBalance (p : ChessPos) : ℤ :=
  ((List.range 8).map (fun r =>
    ((List.range 8).map (fun f =>
      match cellAt p.board r f with
      | some pc => if pc.color = 'w' then pieceVal pc.pieceType
                   else -pieceVal pc.pieceType
      | none => (0 : ℤ))).sum)).sum

/-- `RealStockfishEngine.evaluatePieceActivity`: mobility `4` per legal
move, `+15` per capture flag, `+20` per check flag, `+5` per knight or
bishop move, signed by the side to move. -/
def evaluatePieceActivity (p : ChessPos) : ℤ :=
  let moves := p.legalMoves
  let act := moves.foldl (fun a m =>
    a + (if strIncludes m.flags "c" then 15 else 0)
      + (if strIncludes m.flags "+" then 20 else 0)
      + (if m.piece = 'n' ∨ m.piece = 'b' then 5 else 0))
    ((moves.length : ℤ) * 4)
  if p.turn = 'w' then act else -act

/-- `RealStockfishEngine.evaluateKingSafety`: `∓60` while the side to move
is in check, `+25` per white castling right, `-25` per black one. -/
def evaluateKingSafety (p : ChessPos) : ℤ :=
  (if p.inCheckFlag then (if p.turn = 'w' then (-60 : ℤ) else 60) else 0)
    + ((if p.castleWk then 1 else 0) + (if p.castleWq then 1 else 0)) * 25
    - ((if p.castleBk then 1 else 0) + (if p.castleBq then 1 else 0)) * 25

/-- Number of pawns of the given color on file `f` of the grid. -/
def pawnsInFile (p : ChessPos) (f : Nat) (color : Char) : Nat :=
  ((List.range 8).filter (fun r =>
    match cellAt p.board r f with
    | some pc => pc.pieceType = 'p' && pc.color = color
    | none => false)).length

/-- `RealStockfishEngine.isIsolatedPawn`: no same-color pawn on either
adjacent file (files outside `0..7` skipped). -/
def isIsolatedPawn (p : ChessPos) (f : ℤ) (color : Char) : Bool :=
  ([f - 1, f + 1].filter (fun cf => 0 ≤ cf && cf < 8)).all (fun cf =>
    ((List.range 8).all (fun r =>
      match cellAt p.board r cf.toNat with
      | some pc => !(pc.pieceType = 'p' && pc.color = color)
      | none => true)))

/-- `RealStockfishEngine.evaluatePawnStructure`: `25` per doubled pawn
beyond the first on a file, `20` per isolated pawn, penalising White and
crediting Black symmetrically. -/
def evaluatePawnStructure (p : ChessPos) : ℤ :=
  ((List.range 8).map (fun f =>
    let w := pawnsInFile p f 'w'
    let b := pawnsInFile p f 'b'
    (if 1 < w then -(((w : ℤ) - 1) * 25) else 0)
      + (if 1 < b then ((b : ℤ) - 1) * 25 else 0)
      + (if w = 1 ∧ isIsolatedPawn p (f : ℤ) 'w' then (-20 : ℤ) else 0)
      + (if b = 1 ∧ isIsolatedPawn p (f : ℤ) 'b' then (20 : ℤ) else 0))).sum

/-- `chess.get(square)` for a two-character square name: row 0 of the grid
is rank 8. -/
def chessGet (p : ChessPos) (sq : String) : Option Piece :=
  match sq.toList with
  | [fc, rc] => cellAt p.board (8 - (rc.toNat - '0'.toNat)) (fc.toNat - 'a'.toNat)
  | _ => none

/-- `RealStockfishEngine.evaluatePositionalFactors`: `±35` per occupied
central square, plus twice the number of distinct destination squares of
the legal moves, signed by the side to move. -/
def evaluatePositionalFactors (p : ChessPos) : ℤ :=
  let center := (["e4", "e5", "d4", "d5"]).foldl (fun a sq =>
    match chessGet p sq with
    | some pc => a + (if pc.color = 'w' then 35 else -35)
    | none => a) (0 : ℤ)
  let attacked : ℤ := ((p.legalMoves.map (fun m => m.toSq)).dedup.length : ℤ) * 2
  center + (if p.turn = 'w' then attacked else -attacked)

/-- `RealStockfishEngine.evaluateTacticalFactors`: the value of each
capturable piece (defaulting to a pawn) and `50` per available check,
signed by the side to move. -/
def evaluateTacticalFactors (p : ChessPos) : ℤ :=
  p.legalMoves.foldl (fun a m =>
    a + (if strIncludes m.flags "c" then
          (if p.turn = 'w' then pieceVal (m.captured.getD 'p')
           else -pieceVal (m.captured.getD 'p')) else 0)
      + (if strIncludes m.flags "+" then
          (if p.turn = 'w' then (50 : ℤ) else -50) else 0)) 0

/-- `RealStockfishEngine.calculateStockfishStyleEvaluation`: the sum of
the six heuristic components. -/
def calculateStockfishStyleEvaluation (p : ChessPos) : ℤ :=
  getMaterialBalance p + evaluatePieceActivity p + evaluateKingSafety p
    + evaluatePawnStructure p + evaluatePositionalFactors p
    + evaluateTacticalFactors p

/-! ## The PGN extraction fallback

`analyzeCompleteGame` falls back to manual extraction when
`chess.loadPgn` throws: line filtering, a global regex scan for
move-shaped tokens, a token filter, and a sequential replay that keeps
the validated initial run of candidates.  The move-token regex has no
repetition operators, so a backtracking matcher over a small pattern
syntax is total by structural recursion. -/

/-- A regex word character, `[A-Za-z0-9_]`. -/
def isWordChar (c : Char) : Bool :=
  ('a' ≤ c && c ≤ 'z') || ('A' ≤ c && c ≤ 'Z') || c.isDigit || c == '_'

/-- The fragment of JavaScript regexes used by the move pattern:
character classes, literals, concatenation, ordered alternation, and the
greedy option. -/
inductive RE where
  | cls (cs : List Char)
  | lit (cs : List Char)
  | seq (a b : RE)
  | alt (a b : RE)
  | opt (a : RE)

/-- Backtracking matcher: try to match `r` at the head of the input and
continue with `k` on the remainder, preferring — as JavaScript does — the
left alternative and the consuming branch of a greedy option. -/
def reMatch : RE → List Char → (List Char → Option (List Char)) → Option (List Char)
  | .cls cs, [], _ => if cs.isEmpty then none else none
  | .cls cs, x :: rest, k => if cs.contains x then k rest else none
  | .lit cs, s, k =>
      if s.take cs.length = cs then k (s.drop cs.length) else none
  | .seq a b, s, k => reMatch a s (fun s1 => reMatch b s1 k)
  | .alt a b, s, k => (reMatch a s k).orElse (fun _ => reMatch b s k)
  | .opt a, s, k => (reMatch a s k).orElse (fun _ => k s)

/-- `[a-h]`. -/
def fileChars : List Char := ['a', 'b', 'c', 'd', 'e', 'f', 'g', 'h']

/-- `[1-8]`. -/
def rankChars : List Char := ['1', '2', '3', '4', '5', '6', '7', '8']

/-- `[NBRQK]`. -/
def pieceChars : List Char := ['N', 'B', 'R', 'Q', 'K']

/-- `(?:=[NBRQK])?`. -/
def promoSuffix : RE := .opt (.seq (.lit ['=']) (.cls pieceChars))

/-- `[+#]?`. -/
def checkSuffix : RE := .opt (.cls ['+', '#'])

/-- `[NBRQK]?[a-h]?[1-8]?x?[a-h][1-8](?:=[NBRQK])?[+#]?`. -/
def pieceCore : RE :=
  .seq (.opt (.cls pieceChars)) (.seq (.opt (.cls fileChars))
    (.seq (.opt (.cls rankChars)) (.seq (.opt (.lit ['x']))
      (.seq (.cls fileChars) (.seq (.cls rankChars)
        (.seq promoSuffix checkSuffix))))))

/-- `O-O(?:-O)?`. -/
def castleCore : RE := .seq (.lit ['O', '-', 'O']) (.opt (.lit ['-', 'O']))

/-- `[a-h][1-8](?:=[NBRQK])?[+#]?`. -/
def pawnCore : RE :=
  .seq (.cls fileChars) (.seq (.cls rankChars) (.seq promoSuffix checkSuffix))

/-- The move pattern's alternation, in source order. -/
def movePattern : RE := .alt pieceCore (.alt castleCore pawnCore)

/-- Match the move pattern at the head of `s`, with the regex's trailing
`\b`: the matched token ends at a word/non-word boundary (end of input
counting as non-word).  Returns the matched token. -/
def matchToken (s : List Char) : Option (List Char) :=
  match reMatch movePattern s (fun rest =>
    match (s.take (s.length - rest.length)).getLast? with
    | none => none
    | some lastc =>
      let nextWord := match rest.head? with
        | some c => isWordChar c
        | none => false
      if isWordChar lastc ≠ nextWord then some rest else none) with
  | some rest => some (s.take (s.length - rest.length))
  | none => none

/-- Is the previous character a word character (`false` at the start of
the input)? -/
def isWordCharOpt : Option Char → Bool
  | some c => isWordChar c
  | none => false

/-- The global scan of `movesText.match(movePattern)`: at each position
whose left context satisfies the pattern's leading `\b` (every token
starts with a word character, so the previous character must not be one),
emit the token matched there and resume after it; otherwise advance one
character.  `fuel` bounds the number of scan steps by the input length. -/
def scanTokensF : Nat → Option Char → List Char → List (List Char)
  | 0, _, _ => []
  | _ + 1, _, [] => []
  | fuel + 1, prev, c :: rest =>
    if isWordCharOpt prev then
      scanTokensF fuel (some c) rest
    else
      match matchToken (c :: rest) with
      | some tok =>
          tok :: scanTokensF fuel tok.getLast? ((c :: rest).drop tok.length)
      | none => scanTokensF fuel (some c) rest

/-- All matches of the move pattern in `s`, in order. -/
def jsMatchAll (s : String) : List String :=
  (scanTokensF s.toList.length none s.toList).map (fun t => String.mk t)

/-- The four game-result tokens of the stripping regex, in source order. -/
def resultToks : List (List Char) :=
  [['1', '-', '0'], ['0', '-', '1'], ['1', '/', '2', '-', '1', '/', '2'], ['*']]

/-- `line.replace(/\s+(1-0|0-1|1\/2-1\/2|\*)$/, '')`: when the line ends
with a result token preceded by at least one whitespace character, drop
the token and the whole whitespace run before it. -/
def stripResultSuffix (s : String) : String :=
  let cs := s.toList
  match resultToks.find? (fun tok =>
      decide (tok.length ≤ cs.length)
        && decide (cs.drop (cs.length - tok.length) = tok)) with
  | some tok =>
    let core := cs.take (cs.length - tok.length)
    let ws := core.reverse.takeWhile (fun c => c.isWhitespace)
    if ws.isEmpty then s
    else String.mk ((core.reverse.drop ws.length).reverse)
  | none => s

/-- Index of the last `]` in the character list, if any
(`lastIndexOf(']')`). -/
def lastIdxAux : List Char → Nat → Option Nat → Option Nat
  | [], _, acc => acc
  | c :: rest, i, acc =>
      lastIdxAux rest (i + 1) (if c = ']' then some i else acc)

/-- One line of the manual extraction: header lines keep any non-header
content after the last `]`, other non-blank lines are kept; both have a
trailing result token stripped and are dropped when empty. -/
def processLine (line : String) : Option String :=
  let t := jsTrim line
  match t.toList with
  | '[' :: _ =>
    match lastIdxAux t.toList 0 none with
    | some i =>
      if i + 1 < t.length then
        let afterHeader := stripResultSuffix (jsTrim (String.mk (t.toList.drop (i + 1))))
        if afterHeader = "" then none else some afterHeader
      else none
    | none => none
  | [] => none
  | _ =>
    let cleanedLine := stripResultSuffix t
    if cleanedLine = "" then none else some cleanedLine

/-- `/^\d+\.?$/`: one or more digits, optionally a final dot. -/
def isMoveNumberTok (s : String) : Bool :=
  let cs := s.toList
  let ds := cs.takeWhile (fun c => c.isDigit)
  !ds.isEmpty && (decide (cs.drop ds.length = []) || decide (cs.drop ds.length = ['.']))

/-- The post-scan filter of the fallback: drop move numbers and anything
containing a result marker. -/
def tokenKept (s : String) : Bool :=
  !isMoveNumberTok s && !strIncludes s "1-0" && !strIncludes s "0-1"
    && !strIncludes s "1/2-1/2" && !strIncludes s "*"

/-- The candidate move list the fallback recovers from the raw PGN text,
before the replay validation. -/
def extractCandidates (pgn : String) : List String :=
  let moveLines := ((jsSplitNl pgn).filterMap processLine)
  let movesText := String.intercalate " " moveLines
  (jsMatchAll movesText).filter tokenKept

/-- The replay of candidates from the given history: accepted moves are
kept and applied, the first rejected candidate (chess.js throwing on
`chess.move`) ends the loop. -/
def replayGo (isLegal : List String → String → Bool) :
    List String → List String → List String
  | _, [] => []
  | hist, c :: cs =>
      if isLegal hist c then c :: replayGo isLegal (hist ++ [c]) cs else []

/-- Replay the candidates from the initial position, keeping the
validated initial run. -/
def replayValidate (isLegal : List String → String → Bool)
    (cands : List String) : List String :=
  replayGo isLegal [] cands

/-! ## The game-analysis loop of `StockfishApiEngine.analyzeCompleteGame`

The rules capability is the pair of `chess.loadPgn` (returning the parsed
history, or nothing when it throws) and per-move legality given the moves
already applied.  The evaluation source maps each ply index to the result
of the (retried) remote call for the position after that ply: an error
when the call finally threw, otherwise the parsed response. -/

/-- The rules-of-chess capability consumed by the analyzer. -/
structure RulesCap where
  loadPgn : String → Option (List String)
  isLegal : List String → String → Bool

/-- One element of `GameAnalysisResult.moveEvaluations`. -/
structure MoveEval where
  moveNumber : Nat
  move : String
  evaluation : ℤ
  evaluationFloat : ℚ
  mate : Option ℤ
  bestMove : Option String
deriving DecidableEq

/-- The `GameAnalysisResult` returned to the caller. -/
structure GameAnalysisResult where
  gameId : String
  pgn : String
  moveEvaluations : List MoveEval
  rawOutput : String
  totalMoves : Nat
deriving DecidableEq

/-- `analysis.mate || undefined`: JavaScript truthiness turns both `null`
and `0` into no mate. -/
def mateTruthy : Option ℤ → Option ℤ
  | some v => if v = 0 then none else some v
  | none => none

/-- The `evalStr` of a transcript line: `#`-prefixed mate distance when
`analysis.mate` is truthy, else the signed two-decimal evaluation. -/
def evalStr (a : StockfishApiAnalysis) : String :=
  match mateTruthy a.mate with
  | some m => "#" ++ (if 0 < m then "+" else "") ++ toString m
  | none => (if 0 < a.evaluation then "+" else "") ++ qToFixed2 a.evaluation

/-- The move list the analyzer works on: the chess.js parse when it
succeeds, otherwise the validated fallback extraction. -/
def extractGameMoves (rules : RulesCap) (pgn : String) : List String :=
  match rules.loadPgn pgn with
  | some ms => ms
  | none => replayValidate rules.isLegal (extractCandidates pgn)

/-- The per-ply loop of `analyzeCompleteGame` over the (capped) move
list, with `i` the ply index and `hist` the moves already applied: apply
the move (an illegal move escapes to the outer catch), call the
evaluation source, and on a successful response append the record and the
transcript line; a thrown or unsuccessful evaluation skips the ply. -/
def analyzeLoop (evalSource : Nat → Except Unit StockfishApiAnalysis)
    (isLegal : List String → String → Bool) :
    List String → Nat → List String → Except String (List MoveEval × List String)
  | [], _, _ => .ok ([], [])
  | m :: rest, i, hist =>
    if isLegal hist m then
      match analyzeLoop evalSource isLegal rest (i + 1) (hist ++ [m]) with
      | .error e => .error e
      | .ok (recs, lns) =>
        match evalSource i with
        | .error _ => .ok (recs, lns)
        | .ok a =>
          if a.success then
            .ok ({ moveNumber := i / 2 + 1,
                   move := padEnd7 m ++ "|",
                   evaluation := round (a.evaluation * 100),
                   evaluationFloat := a.evaluation,
                   mate := mateTruthy a.mate,
                   bestMove := some a.bestmove } :: recs,
                 ("Move " ++ toString (i + 1) ++ ": " ++ padEnd7 m
                   ++ "| Eval: " ++ evalStr a) :: lns)
          else .ok (recs, lns)
    else .error "Failed to analyze game with Stockfish API"

/-- The post-loop blunder scan: walk consecutive pairs of recorded
`evaluationFloat`s and stop at the first absolute difference exceeding
`1.0`. -/
def hasBlundersScan : List ℚ → Bool
  | a :: b :: rest => if 1 < |b - a| then true else hasBlundersScan (b :: rest)
  | _ => false

/-- The warning line of the transcript. -/
def blunderLine : String := "⚠️ Major evaluation drops detected."

/-- The clean-game line of the transcript. -/
def cleanLine : String := "✅ No major evaluation drops detected."

/-- Match `\[Event\s+"([^"]+)"\]` at the head of the input, returning the
quoted group. -/
def eventAt (cs : List Char) : Option String :=
  if cs.take 6 = ['[', 'E', 'v', 'e', 'n', 't'] then
    let rest := cs.drop 6
    let ws := rest.takeWhile (fun c => c.isWhitespace)
    if ws.isEmpty then none
    else
      match rest.drop ws.length with
      | '"' :: more =>
        let name := more.takeWhile (fun c => c ≠ '"')
        if name.isEmpty then none
        else
          match more.drop name.length with
          | '"' :: ']' :: _ => some (String.mk name)
          | _ => none
      | _ => none
  else none

/-- First match of the `Event` header regex anywhere in the text. -/
def findEventAux : List Char → Option String
  | [] => none
  | c :: rest =>
    match eventAt (c :: rest) with
    | some n => some n
    | none => findEventAux rest

/-- `pgn.match(/\[Event\s+"([^"]+)"\]/)`, giving the game name. -/
def findEventName (pgn : String) : Option String :=
  findEventAux pgn.toList

/-- `StockfishApiEngine.analyzeCompleteGame(pgn, gameId)`: extract the
move list (parser or fallback), analyze at most the first 30 plies,
scan the recorded evaluations for a drop exceeding `1.0`, and assemble
the report.  An illegal move during the loop escapes as the outer
catch's error. -/
def analyzeCompleteGame (rules : RulesCap)
    (evalSource : Nat → Except Unit StockfishApiAnalysis)
    (pgn gameId : String) : Except String GameAnalysisResult :=
  let gameMoves := extractGameMoves rules pgn
  let gameName := (findEventName pgn).getD "Chess Game"
  let maxMoves := min gameMoves.length 30
  match analyzeLoop evalSource rules.isLegal (gameMoves.take maxMoves) 0 [] with
  | .error e => .error e
  | .ok (recs, lns) =>
    let hasBlunders := hasBlundersScan (recs.map (fun x => x.evaluationFloat))
    .ok { gameId := gameId,
          pgn := pgn,
          moveEvaluations := recs,
          rawOutput := String.intercalate "\n"
            (("📂 Game: " ++ gameName) :: lns
              ++ ["", if hasBlunders then blunderLine else cleanLine]),
          totalMoves := gameMoves.length }

/-! ## The Python `analyze_game` scripts -/

/-- A `python-chess` relative score: centipawns or a signed mate
distance. -/
inductive PyPovScore where
  | cp (x : ℤ)
  | mateIn (n : ℤ)
deriving DecidableEq

/-- The first script's explicit normalization (lines 26–29 / 48–51 of the
source): a mate becomes `±100.0` pawns — the `±10000` centipawn sentinel
on the pawn scale — and a centipawn score is divided by `100`. -/
def script1Normalize : PyPovScore → ℚ
  | .mateIn n => if 0 < n then 100 else -100
  | .cp x => (x : ℚ) / 100

/-- The second script's per-move blunder test (lines 114–117 of the
source): both scores present, `delta = abs(score_before - score_after)`
at least `200`, and the played move differs from the engine's suggested
best move. -/
def pyBlunderCheck (scoreBefore scoreAfter : Option ℤ)
    (played best : String) : Bool :=
  match scoreBefore, scoreAfter with
  | some b, some a => decide (200 ≤ |b - a|) && decide (played ≠ best)
  | _, _ => false


/-! ## Theorems -/

/-- Helper: mapping over `range (k+1)` versus `range k`. -/
theorem map_range_succ_shift {α : Type} (g : Nat → α) (k : Nat) :
    (List.range (k + 1)).map g
      = g 0 :: (List.range k).map (fun j => g (j + 1)) := by
  rw [List.range_succ_eq_map]
  simp [List.map_map, Function.comp, Nat.succ_eq_add_one]

/-- Helper: when every supplied attempt outcome fails, the call ends in
the generic thrown error, whatever the retry counter. -/
theorem analyzePosition_fail_all (outcomes : List AttemptOutcome)
    (h : ∀ o ∈ outcomes, outcomeFails o = true) :
    ∀ rc, (analyzePosition outcomes rc).1 = .failure apiFailMsg := by
  induction outcomes with
  | nil => intro rc; rfl
  | cons o rest ih =>
    intro rc
    have ho : outcomeFails o = true := h o (List.mem_cons_self o rest)
    have hrest : ∀ x ∈ rest, outcomeFails x = true :=
      fun x hx => h x (List.mem_cons_of_mem o hx)
    cases o with
    | response data =>
      have hs : data.success = false := by
        simpa [outcomeFails] using ho
      by_cases hrc : rc < maxRetries
      · simpa [analyzePosition, hs, hrc] using ih hrest (rc + 1)
      · simp [analyzePosition, hs, hrc]
    | httpError status =>
      by_cases hrc : rc < maxRetries
      · simpa [analyzePosition, hrc] using ih hrest (rc + 1)
      · simp [analyzePosition, hrc]
    | fetchError msg =>
      by_cases hcond : (decide (rc < maxRetries)
          && !strIncludes msg "API request failed:"
          && !strIncludes msg "unsuccessful response") = true
      · simpa [analyzePosition, hcond] using ih hrest (rc + 1)
      · simp [analyzePosition, hcond]

/-- Helper: the observed delays are always an initial run of the linear
backoff schedule, of length at most the remaining retry budget. -/
theorem analyzePosition_delays (outcomes : List AttemptOutcome) :
    ∀ rc, ∃ k, k ≤ maxRetries - rc ∧
      (analyzePosition outcomes rc).2
        = (List.range k).map (fun j => baseDelay + (rc + j) * 200) := by
  induction outcomes with
  | nil => intro rc; exact ⟨0, Nat.zero_le _, rfl⟩
  | cons o rest ih =>
    intro rc
    have step : rc < maxRetries →
        ∃ k, k ≤ maxRetries - rc ∧
          (baseDelay + rc * 200) :: (analyzePosition rest (rc + 1)).2
            = (List.range k).map (fun j => baseDelay + (rc + j) * 200) := by
      intro hrc
      obtain ⟨k, hk, he⟩ := ih (rc + 1)
      refine ⟨k + 1, by omega, ?_⟩
      rw [map_range_succ_shift]
      congr 1
      rw [he]
      apply List.map_congr_left
      intro j _
      ring_nf
    cases o with
    | response data =>
      by_cases hs : data.success = true
      · exact ⟨0, Nat.zero_le _, by simp [analyzePosition, hs]⟩
      · by_cases hrc : rc < maxRetries
        · obtain ⟨k, hk, he⟩ := step hrc
          exact ⟨k, hk, by simpa [analyzePosition, hs, hrc] using he⟩
        · exact ⟨0, Nat.zero_le _, by simp [analyzePosition, hs, hrc]⟩
    | httpError status =>
      by_cases hrc : rc < maxRetries
      · obtain ⟨k, hk, he⟩ := step hrc
        exact ⟨k, hk, by simpa [analyzePosition, hrc] using he⟩
      · exact ⟨0, Nat.zero_le _, by simp [analyzePosition, hrc]⟩
    | fetchError msg =>
      by_cases hcond : (decide (rc < maxRetries)
          && !strIncludes msg "API request failed:"
          && !strIncludes msg "unsuccessful response") = true
      · have hrc : rc < maxRetries := by
          simp only [Bool.and_eq_true, decide_eq_true_eq] at hcond
          exact hcond.1.1
        obtain ⟨k, hk, he⟩ := step hrc
        exact ⟨k, hk, by simpa [analyzePosition, hcond] using he⟩
      · exact ⟨0, Nat.zero_le _, by simp [analyzePosition, hcond]⟩

/-- Helper: the call never looks beyond its three-attempt budget. -/
theorem analyzePosition_take (outcomes : List AttemptOutcome) :
    ∀ rc, rc ≤ maxRetries →
      analyzePosition outcomes rc
        = analyzePosition (outcomes.take (maxRetries + 1 - rc)) rc := by
  induction outcomes with
  | nil => intro rc _; simp
  | cons o rest ih =>
    intro rc hrc
    have htake : (o :: rest).take (maxRetries + 1 - rc)
        = o :: rest.take (maxRetries - rc) := by
      have h1 : maxRetries + 1 - rc = (maxRetries - rc) + 1 := by omega
      simp [h1]
    rw [htake]
    have hsucc : rc < maxRetries → rest.take (maxRetries - rc)
        = rest.take (maxRetries + 1 - (rc + 1)) := by
      intro h; congr 1; omega
    cases o with
    | response data =>
      by_cases hs : data.success = true
      · simp [analyzePosition, hs]
      · by_cases h2 : rc < maxRetries
        · simp only [analyzePosition, hs, h2, Bool.false_eq_true, if_false,
            if_true]
          rw [ih (rc + 1) (by omega), hsucc h2]
        · simp [analyzePosition, hs, h2]
    | httpError status =>
      by_cases h2 : rc < maxRetries
      · simp only [analyzePosition, h2, if_true]
        rw [ih (rc + 1) (by omega), hsucc h2]
      · simp [analyzePosition, h2]
    | fetchError msg =>
      by_cases hcond : (decide (rc < maxRetries)
          && !strIncludes msg "API request failed:"
          && !strIncludes msg "unsuccessful response") = true
      · have h2 : rc < maxRetries := by
          simp only [Bool.and_eq_true, decide_eq_true_eq] at hcond
          exact hcond.1.1
        simp only [analyzePosition, hcond, if_true]
        rw [ih (rc + 1) (by omega), hsucc h2]
      · simp [analyzePosition, hcond]

/-- Helper: a retryable first outcome adds the scheduled delay and
recurses, while the budget lasts. -/
theorem analyzePosition_retry_step (o : AttemptOutcome)
    (rest : List AttemptOutcome) (rc : Nat) (hrc : rc < maxRetries)
    (h : retryableOutcome o = true) :
    analyzePosition (o :: rest) rc
      = ((analyzePosition rest (rc + 1)).1,
         (baseDelay + rc * 200) :: (analyzePosition rest (rc + 1)).2) := by
  cases o with
  | response data =>
    have hs : data.success = false := by simpa [retryableOutcome] using h
    simp [analyzePosition, hs, hrc]
  | httpError status => simp [analyzePosition, hrc]
  | fetchError msg =>
    have hm := h
    simp only [retryableOutcome, Bool.and_eq_true, Bool.not_eq_true'] at hm
    simp [analyzePosition, hrc, hm.1, hm.2]

/-- Claim C4 (amended): a logical remote call makes at most 3 attempts —
its result only depends on the first three outcomes — and the delay
before the k-th retry (k = 1, 2) is 600 + 200·(k−1) ms; a call failing
retryably twice and succeeding on the third attempt returns that success
after exactly the two delays 600 ms and 800 ms; a call whose three
attempts all fail throws the fixed error
`Failed to analyze position with Stockfish API` (the last underlying
error is only logged, not surfaced). -/
theorem c4_retry_behavior :
    (∀ outcomes : List AttemptOutcome,
        analyzePosition outcomes 0 = analyzePosition (outcomes.take 3) 0) ∧
    (∀ outcomes : List AttemptOutcome, ∃ k, k ≤ 2 ∧
        (analyzePosition outcomes 0).2
          = (List.range k).map (fun j => 600 + j * 200)) ∧
    (∀ o₁ o₂ : AttemptOutcome, ∀ a : StockfishApiAnalysis,
        retryableOutcome o₁ = true → retryableOutcome o₂ = true →
        a.success = true →
        analyzePosition [o₁, o₂, .response a] 0 = (.success a, [600, 800])) ∧
    (∀ outcomes : List AttemptOutcome,
        (∀ o ∈ outcomes, outcomeFails o = true) →
        (analyzePosition outcomes 0).1 = .failure apiFailMsg) := by
  refine ⟨?_, ?_, ?_, ?_⟩
  · intro outcomes
    exact analyzePosition_take outcomes 0 (by decide)
  · intro outcomes
    obtain ⟨k, hk, he⟩ := analyzePosition_delays outcomes 0
    exact ⟨k, hk, by simpa using he⟩
  · intro o₁ o₂ a h1 h2 ha
    rw [analyzePosition_retry_step o₁ _ 0 (by decide) h1,
      analyzePosition_retry_step o₂ _ 1 (by decide) h2]
    simp [analyzePosition, ha, baseDelay]
  · intro outcomes h
    exact analyzePosition_fail_all outcomes h 0

/-- Witness for C4: a call that fails with an HTTP error, then a network
error, then succeeds, returns the third attempt's analysis after the two
delays 600 ms and 800 ms; and three HTTP failures end in the generic
error. -/
theorem c4_retry_behavior_witness :
    analyzePosition [.httpError 500, .fetchError "boom",
        .response ⟨true, 1, none, "bm"⟩] 0
      = (.success ⟨true, 1, none, "bm"⟩, [600, 800]) ∧
    (analyzePosition [.httpError 500, .httpError 502, .httpError 503] 0).1
      = .failure apiFailMsg :=
  ⟨c4_retry_behavior.2.2.1 (.httpError 500) (.fetchError "boom")
      ⟨true, 1, none, "bm"⟩ (by decide) (by decide) rfl,
   c4_retry_behavior.2.2.2 _ (by decide)⟩

/-- Counterexample to C4 as stated: when all three attempts fail with
HTTP status 500, the error surfaced is the fixed generic message, not the
last error encountered (`API request failed: 500`). -/
theorem c4_counterexample :
    analyzePosition [.httpError 500, .httpError 500, .httpError 500] 0
      = (.failure apiFailMsg, [600, 800]) ∧
    apiFailMsg ≠ "API request failed: 500" := by
  constructor
  · decide
  · decide

/-- Helper: undoing a just-pushed move restores the board. -/
theorem chessUndo_chessMove (b : Board) (m : VerboseMove) :
    chessUndo (chessMove b m) = b := by
  cases b with
  | mk hist => simp [chessMove, chessUndo]

/-- Helper: the stateful search step is the pure step on the value part,
and keeps the board part. -/
theorem bestStepSt_eq (cap : EngineCap) (b : Board)
    (p : VerboseMove) (e : Option ℤ) (m : VerboseMove) :
    bestStepSt cap (p, e, b) m
      = ((bestStep (fun x => -cap.evalOf (chessMove b x)) (p, e) m).1,
         (bestStep (fun x => -cap.evalOf (chessMove b x)) (p, e) m).2, b) := by
  cases e with
  | none => simp [bestStepSt, bestStep, chessUndo_chessMove]
  | some be =>
    by_cases h : be < -cap.evalOf (chessMove b m) <;>
      simp [bestStepSt, bestStep, chessUndo_chessMove, h]

/-- Helper: folding the stateful step never moves the board, and computes
the pure fold on the value part. -/
theorem foldl_bestStepSt (cap : EngineCap) (b : Board) :
    ∀ (ms : List VerboseMove) (p : VerboseMove) (e : Option ℤ),
      ms.foldl (bestStepSt cap) (p, e, b)
        = ((ms.foldl (bestStep (fun x => -cap.evalOf (chessMove b x))) (p, e)).1,
           (ms.foldl (bestStep (fun x => -cap.evalOf (chessMove b x))) (p, e)).2,
           b) := by
  intro ms
  induction ms with
  | nil => intro p e; rfl
  | cons m rest ih =>
    intro p e
    rw [List.foldl_cons, List.foldl_cons, bestStepSt_eq]
    exact ih _ _

/-- Helper: the stateful search returns the SAN the pure search
computes from the negated evaluations of the successor positions. -/
theorem findBestMoveSt_fst (cap : EngineCap) (b : Board) :
    (findBestMoveSt cap b).1
      = findBestMoveUsingEvaluation (cap.movesOf b)
          (fun x => -cap.evalOf (chessMove b x)) := by
  unfold findBestMoveSt findBestMoveUsingEvaluation
  cases h : cap.movesOf b with
  | nil => rfl
  | cons m0 rest =>
    dsimp only
    rw [foldl_bestStepSt]

/-- Helper: the stateful search hands back exactly the board it was
given. -/
theorem findBestMoveSt_board (cap : EngineCap) (b : Board) :
    (findBestMoveSt cap b).2 = b := by
  unfold findBestMoveSt
  cases h : cap.movesOf b with
  | nil => rfl
  | cons m0 rest =>
    dsimp only
    rw [foldl_bestStepSt]

/-- Helper: folding the alternatives step never moves the board. -/
theorem foldl_altStepSt (cap : EngineCap) :
    ∀ (ms : List VerboseMove) (acc : List (String × ℤ × String) × Board),
      (ms.foldl (altStepSt cap) acc).2 = acc.2 := by
  intro ms
  induction ms with
  | nil => intro acc; rfl
  | cons m rest ih =>
    intro acc
    rw [List.foldl_cons]
    rw [ih]
    simp [altStepSt, chessUndo_chessMove]

/-- Helper: one step of the search loop simulates one step of Mathlib's
`List.argAux` for the same evaluation, keeping the incumbent's cached
evaluation in sync. -/
theorem bestStep_argAux (f : VerboseMove → ℤ) (p : VerboseMove)
    (e : Option ℤ) (o : Option VerboseMove) (m : VerboseMove)
    (h : (e = none ∧ o = none) ∨ ∃ c, o = some c ∧ p = c ∧ e = some (f c)) :
    ((bestStep f (p, e) m).2 = none
        ∧ List.argAux (fun b c => f c < f b) o m = none) ∨
      ∃ c, List.argAux (fun b c => f c < f b) o m = some c
        ∧ (bestStep f (p, e) m).1 = c ∧ (bestStep f (p, e) m).2 = some (f c) := by
  rcases h with ⟨rfl, rfl⟩ | ⟨c, rfl, rfl, rfl⟩
  · exact Or.inr ⟨m, rfl, rfl, rfl⟩
  · by_cases hlt : f p < f m
    · refine Or.inr ⟨m, ?_, ?_, ?_⟩ <;> simp [bestStep, List.argAux, hlt]
    · refine Or.inr ⟨p, ?_, ?_, ?_⟩ <;> simp [bestStep, List.argAux, hlt]

/-- Helper: the search fold simulates the `argAux` fold. -/
theorem foldl_bestStep_argAux (f : VerboseMove → ℤ) :
    ∀ (ms : List VerboseMove) (p : VerboseMove) (e : Option ℤ)
      (o : Option VerboseMove),
      ((e = none ∧ o = none) ∨ ∃ c, o = some c ∧ p = c ∧ e = some (f c)) →
      (((ms.foldl (bestStep f) (p, e)).2 = none
          ∧ ms.foldl (List.argAux fun b c => f c < f b) o = none) ∨
        ∃ c, ms.foldl (List.argAux fun b c => f c < f b) o = some c
          ∧ (ms.foldl (bestStep f) (p, e)).1 = c
          ∧ (ms.foldl (bestStep f) (p, e)).2 = some (f c)) := by
  intro ms
  induction ms with
  | nil =>
    intro p e o h
    rcases h with ⟨h1, h2⟩ | ⟨c, hc, h1, h2⟩
    · exact Or.inl ⟨h1, h2⟩
    · exact Or.inr ⟨c, hc, h1, h2⟩
  | cons m rest ih =>
    intro p e o h
    rw [List.foldl_cons, List.foldl_cons]
    have hstep := bestStep_argAux f p e o m h
    rcases hstep with ⟨h1, h2⟩ | ⟨c, hc, h1, h2⟩
    · rw [h2]
      exact ih (bestStep f (p, e) m).1 (bestStep f (p, e) m).2 none
        (Or.inl ⟨h1, rfl⟩)
    · rw [hc]
      exact ih (bestStep f (p, e) m).1 (bestStep f (p, e) m).2 (some c)
        (Or.inr ⟨c, rfl, h1, h2⟩)

/-- Helper: the pure search agrees with Mathlib's first-encountered
argmax, with `'none'` for the empty move list. -/
theorem findBest_eq_argmax (moves : List VerboseMove)
    (f : VerboseMove → ℤ) :
    findBestMoveUsingEvaluation moves f
      = (List.argmax f moves).elim "none" (fun m => m.san) := by
  cases moves with
  | nil => rfl
  | cons m0 rest =>
    have h := foldl_bestStep_argAux f (m0 :: rest) m0 none none
      (Or.inl ⟨rfl, rfl⟩)
    rcases h with ⟨h1, h2⟩ | ⟨c, hc, h1, h2⟩
    · exfalso
      rw [List.foldl_argAux_eq_none] at h2
      exact List.cons_ne_nil _ _ h2.1
    · have harg : List.argmax f (m0 :: rest) = some c := hc
      rw [harg]
      show ((m0 :: rest).foldl (bestStep f) (m0, none)).1.san = c.san
      exact congrArg VerboseMove.san h1


/-- Claim C5: the depth-1 best-move search returns the `'none'` sentinel
(without throwing) exactly when the position has no legal move; with at
least one legal move, Mathlib's first-encountered argmax of the negated
successor evaluation exists, and the search returns its SAN — a member
of the legal-move list maximizing the negated evaluation of the position
after applying it, with ties broken in favor of the earliest move in the
enumeration order. -/
theorem c5_best_move_search (cap : EngineCap) (b : Board)
    (hsan : ∀ m ∈ cap.movesOf b, m.san ≠ "none") :
    ((findBestMoveSt cap b).1 = "none" ↔ cap.movesOf b = []) ∧
    (cap.movesOf b ≠ [] →
      (List.argmax (fun x => -cap.evalOf (chessMove b x))
        (cap.movesOf b)).isSome = true) ∧
    (∀ m, List.argmax (fun x => -cap.evalOf (chessMove b x))
        (cap.movesOf b) = some m →
      (findBestMoveSt cap b).1 = m.san ∧ m ∈ cap.movesOf b ∧
      (∀ n ∈ cap.movesOf b,
        -cap.evalOf (chessMove b n) ≤ -cap.evalOf (chessMove b m)) ∧
      (∀ n ∈ cap.movesOf b,
        -cap.evalOf (chessMove b m) ≤ -cap.evalOf (chessMove b n) →
        (cap.movesOf b).indexOf m ≤ (cap.movesOf b).indexOf n)) := by
  have hkey : (findBestMoveSt cap b).1
      = (List.argmax (fun x => -cap.evalOf (chessMove b x))
          (cap.movesOf b)).elim "none" (fun m => m.san) := by
    rw [findBestMoveSt_fst]
    exact findBest_eq_argmax (cap.movesOf b)
      (fun x => -cap.evalOf (chessMove b x))
  refine ⟨?_, ?_, ?_⟩
  · constructor
    · intro hnone
      by_contra hne
      have hno : List.argmax (fun x => -cap.evalOf (chessMove b x))
          (cap.movesOf b) ≠ none :=
        fun hno => hne (List.argmax_eq_none.mp hno)
      obtain ⟨m, hm⟩ := Option.isSome_iff_exists.mp
        (Option.ne_none_iff_isSome.mp hno)
      rw [hkey, hm] at hnone
      exact hsan m (List.argmax_mem (Option.mem_def.mpr hm)) hnone
    · intro hnil
      rw [hkey, hnil]
      rfl
  · intro hne
    apply Option.ne_none_iff_isSome.mp
    intro hno
    exact hne (List.argmax_eq_none.mp hno)
  · intro m hm
    have hm' : m ∈ List.argmax (fun x => -cap.evalOf (chessMove b x))
        (cap.movesOf b) := Option.mem_def.mpr hm
    refine ⟨?_, List.argmax_mem hm', ?_, ?_⟩
    · rw [hkey, hm]
      rfl
    · intro n hn
      have h := List.le_of_mem_argmax hn hm'
      exact h
    · intro n hn hle
      have h := List.index_of_argmax hm' hn
      exact h hle

/-- Witness for C5: in a position offering `a3` (successor evaluation 0)
and `d4` (successor evaluation −5, so negated 5), the search picks
`d4`. -/
theorem c5_best_move_search_witness :
    (findBestMoveSt
        ⟨fun _ => [⟨"a3", "n", 'p', "a3", none⟩, ⟨"d4", "n", 'p', "d4", none⟩],
         fun bd => if bd.hist.map (fun m => m.san) = ["d4"] then -5 else 0⟩
        ⟨[]⟩).1 = "d4" := by
  have h := c5_best_move_search
    ⟨fun _ => [⟨"a3", "n", 'p', "a3", none⟩, ⟨"d4", "n", 'p', "d4", none⟩],
     fun bd => if bd.hist.map (fun m => m.san) = ["d4"] then -5 else 0⟩
    ⟨[]⟩ (by decide)
  exact (h.2.2 ⟨"d4", "n", 'p', "d4", none⟩ (by decide)).1

/-- Claim C9: on a position with at least one legal move, the best-move
search and the top-alternatives enumeration hand the board back exactly
as given: every pushed candidate was undone. -/
theorem c9_board_unchanged (cap : EngineCap) (b : Board)
    (_h : cap.movesOf b ≠ []) :
    (findBestMoveSt cap b).2 = b ∧ (getTopAlternativesSt cap b).2 = b := by
  refine ⟨findBestMoveSt_board cap b, ?_⟩
  unfold getTopAlternativesSt
  exact foldl_altStepSt cap _ _

/-- Witness for C9: a two-move position leaves the empty-history board
unchanged through both calls. -/
theorem c9_board_unchanged_witness :
    (findBestMoveSt
        ⟨fun _ => [⟨"a3", "n", 'p', "a3", none⟩, ⟨"d4", "n", 'p', "d4", none⟩],
         fun bd => if bd.hist.map (fun m => m.san) = ["d4"] then -5 else 0⟩
        ⟨[]⟩).2 = ⟨[]⟩ ∧
    (getTopAlternativesSt
        ⟨fun _ => [⟨"a3", "n", 'p', "a3", none⟩, ⟨"d4", "n", 'p', "d4", none⟩],
         fun bd => if bd.hist.map (fun m => m.san) = ["d4"] then -5 else 0⟩
        ⟨[]⟩).2 = ⟨[]⟩ :=
  c9_board_unchanged
    ⟨fun _ => [⟨"a3", "n", 'p', "a3", none⟩, ⟨"d4", "n", 'p', "d4", none⟩],
     fun bd => if bd.hist.map (fun m => m.san) = ["d4"] then -5 else 0⟩
    ⟨[]⟩ (by decide)

/-- Claim C8: the heuristic evaluator is deterministic — its score is a
function of the position and configuration alone (grid, turn, check
flag, castling rights, and the fixed legal-move enumeration); two calls
on the same position agree even when the ambient state the evaluator
never reads (game history, the `Math.random()` stream, the move
counter) differs between the calls. -/
theorem c8_evaluation_deterministic (P Q : ChessPos)
    (hb : P.board = Q.board) (ht : P.turn = Q.turn)
    (hc : P.inCheckFlag = Q.inCheckFlag)
    (h1 : P.castleWk = Q.castleWk) (h2 : P.castleWq = Q.castleWq)
    (h3 : P.castleBk = Q.castleBk) (h4 : P.castleBq = Q.castleBq)
    (hm : P.legalMoves = Q.legalMoves) :
    calculateStockfishStyleEvaluation P
      = calculateStockfishStyleEvaluation Q := by
  cases P
  cases Q
  dsimp only at hb ht hc h1 h2 h3 h4 hm
  subst hb
  subst ht
  subst hc
  subst h1
  subst h2
  subst h3
  subst h4
  subst hm
  rfl

/-- Witness for C8: on the empty grid, two states that differ only in
move counter, history and random stream evaluate identically. -/
theorem c8_evaluation_deterministic_witness :
    calculateStockfishStyleEvaluation
        ⟨List.replicate 8 (List.replicate 8 none), 'w', false, true, true,
          true, true, [], 1, [], []⟩
      = calculateStockfishStyleEvaluation
        ⟨List.replicate 8 (List.replicate 8 none), 'w', false, true, true,
          true, true, [], 33, ["e4"], [1/2]⟩ :=
  c8_evaluation_deterministic _ _ rfl rfl rfl rfl rfl rfl rfl rfl


/-- Helper: a successful analysis loop produces at most one record per
pending ply, and every record's integer evaluation is the rounding of a
hundred times its float evaluation. -/
theorem analyzeLoop_ok_spec (evalSource : Nat → Except Unit StockfishApiAnalysis)
    (isLegal : List String → String → Bool) :
    ∀ (pending : List String) (i : Nat) (hist : List String)
      (recs : List MoveEval) (lns : List String),
      analyzeLoop evalSource isLegal pending i hist = .ok (recs, lns) →
      recs.length ≤ pending.length ∧
      ∀ x ∈ recs, x.evaluation = round (100 * x.evaluationFloat) := by
  intro pending
  induction pending with
  | nil =>
    intro i hist recs lns h
    simp only [analyzeLoop] at h
    injection h with h
    injection h with h1 h2
    subst h1
    simp
  | cons m rest ih =>
    intro i hist recs lns h
    simp only [analyzeLoop] at h
    by_cases hleg : isLegal hist m = true
    · rw [if_pos hleg] at h
      cases hrec : analyzeLoop evalSource isLegal rest (i + 1) (hist ++ [m]) with
      | error e =>
        simp only [hrec] at h
        exact Except.noConfusion h
      | ok pr =>
        obtain ⟨recs', lns'⟩ := pr
        simp only [hrec] at h
        obtain ⟨hlen, hmem⟩ := ih (i + 1) (hist ++ [m]) recs' lns' hrec
        cases hes : evalSource i with
        | error u =>
          simp only [hes] at h
          injection h with h
          injection h with h1 h2
          subst h1
          exact ⟨Nat.le_succ_of_le hlen, hmem⟩
        | ok a =>
          simp only [hes] at h
          by_cases hs : a.success = true
          · rw [if_pos hs] at h
            injection h with h
            injection h with h1 h2
            subst h1
            refine ⟨by simpa using hlen, ?_⟩
            intro x hx
            rcases List.mem_cons.mp hx with hx | hx
            · subst hx
              show round (a.evaluation * 100) = round (100 * a.evaluation)
              rw [mul_comm]
            · exact hmem x hx
          · rw [if_neg hs] at h
            injection h with h
            injection h with h1 h2
            subst h1
            exact ⟨Nat.le_succ_of_le hlen, hmem⟩
    · rw [if_neg hleg] at h
      exact absurd h (by simp)

/-- Claim C10: a returned `GameAnalysisResult` reports the full count of
extracted moves in `totalMoves`, carries at most `min(totalMoves, 30)`
per-move records (records exist only for successfully analyzed plies),
and every record satisfies
`evaluation = round(100 * evaluationFloat)`. -/
theorem c10_result_invariants (rules : RulesCap)
    (evalSource : Nat → Except Unit StockfishApiAnalysis)
    (pgn gameId : String) (r : GameAnalysisResult)
    (h : analyzeCompleteGame rules evalSource pgn gameId = .ok r) :
    r.totalMoves = (extractGameMoves rules pgn).length ∧
    r.moveEvaluations.length ≤ min r.totalMoves 30 ∧
    ∀ x ∈ r.moveEvaluations, x.evaluation = round (100 * x.evaluationFloat) := by
  unfold analyzeCompleteGame at h
  dsimp only at h
  cases hloop : analyzeLoop evalSource rules.isLegal
      (List.take (min (extractGameMoves rules pgn).length 30)
        (extractGameMoves rules pgn)) 0 [] with
  | error e =>
    simp only [hloop] at h
    exact Except.noConfusion h
  | ok pr =>
    obtain ⟨recs, lns⟩ := pr
    simp only [hloop] at h
    obtain ⟨hlen, hmem⟩ := analyzeLoop_ok_spec evalSource rules.isLegal
      _ _ _ _ _ hloop
    injection h with h
    subst h
    refine ⟨rfl, ?_, hmem⟩
    calc recs.length
        ≤ (List.take (min (extractGameMoves rules pgn).length 30)
            (extractGameMoves rules pgn)).length := hlen
      _ ≤ min (extractGameMoves rules pgn).length 30 := by
          rw [List.length_take]
          omega

unseal Rat.mul Rat.add Rat.sub Rat.inv in
/-- Witness for C10: a one-move game analyzed with a single successful
evaluation yields a record list of length 1 ≤ min(1, 30) with the
rounding invariant. -/
theorem c10_result_invariants_witness :
    (1 : Nat)
        = (extractGameMoves ⟨fun _ => some ["d4"], fun _ _ => true⟩ "p").length ∧
    ([⟨1, "d4     |", 100, 1, none, some "d4"⟩] : List MoveEval).length
        ≤ min 1 30 ∧
    ∀ x ∈ ([⟨1, "d4     |", 100, 1, none, some "d4"⟩] : List MoveEval),
      x.evaluation = round (100 * x.evaluationFloat) :=
  c10_result_invariants ⟨fun _ => some ["d4"], fun _ _ => true⟩
    (fun _ => .ok ⟨true, 1, none, "d4"⟩) "p" "g"
    ⟨"g", "p", [⟨1, "d4     |", 100, 1, none, some "d4"⟩],
      "📂 Game: Chess Game\nMove 1: d4     | Eval: +1.00\n\n" ++ cleanLine, 1⟩
    (by decide)

/-- Helper: when every ply is legal and every evaluation call returns a
successful response, the loop records every pending ply in order. -/
theorem analyzeLoop_all_ok (evalSource : Nat → Except Unit StockfishApiAnalysis)
    (isLegal : List String → String → Bool) (a : Nat → StockfishApiAnalysis)
    (hsrc : ∀ j, evalSource j = .ok (a j))
    (hsucc : ∀ j, (a j).success = true)
    (hleg : ∀ h m, isLegal h m = true) :
    ∀ (pending : List String) (i : Nat) (hist : List String),
      analyzeLoop evalSource isLegal pending i hist
        = .ok ((List.enumFrom i pending).map (fun pr =>
            ⟨pr.1 / 2 + 1, padEnd7 pr.2 ++ "|",
              round ((a pr.1).evaluation * 100), (a pr.1).evaluation,
              mateTruthy (a pr.1).mate, some (a pr.1).bestmove⟩),
          (List.enumFrom i pending).map (fun pr =>
            "Move " ++ toString (pr.1 + 1) ++ ": " ++ padEnd7 pr.2
              ++ "| Eval: " ++ evalStr (a pr.1))) := by
  intro pending
  induction pending with
  | nil =>
    intro i hist
    simp [analyzeLoop, List.enumFrom]
  | cons m rest ih =>
    intro i hist
    simp only [analyzeLoop, hleg hist m, if_true, ih (i + 1) (hist ++ [m]),
      hsrc i, hsucc i, List.enumFrom, List.map_cons]

/-- Helper: the blunder scan fires exactly when some consecutive pair of
recorded evaluations differs by more than `1.0`. -/
theorem hasBlundersScan_iff :
    ∀ l : List ℚ, hasBlundersScan l = true
      ↔ ∃ i, i + 1 < l.length ∧ 1 < |l.getD (i + 1) 0 - l.getD i 0| := by
  intro l
  induction l with
  | nil => simp [hasBlundersScan]
  | cons a t ih =>
    cases t with
    | nil => simp [hasBlundersScan]
    | cons b rest =>
      by_cases h : 1 < |b - a|
      · simp only [hasBlundersScan, if_pos h]
        constructor
        · intro _
          exact ⟨0, by simp, by simpa using h⟩
        · intro _
          trivial
      · simp only [hasBlundersScan, if_neg h]
        rw [ih]
        constructor
        · rintro ⟨i, hi, hgt⟩
          refine ⟨i + 1, by simpa using hi, ?_⟩
          simpa using hgt
        · rintro ⟨i, hi, hgt⟩
          cases i with
          | zero =>
            exact absurd (by simpa using hgt) h
          | succ j =>
            refine ⟨j, by simpa using hi, ?_⟩
            simpa using hgt

/-- Helper: every successful analysis ends its transcript with the
blank line and then the summary line chosen solely by the blunder scan
over the recorded float evaluations. -/
theorem analyzeCompleteGame_rawOutput (rules : RulesCap)
    (evalSource : Nat → Except Unit StockfishApiAnalysis)
    (pgn gameId : String) (r : GameAnalysisResult)
    (h : analyzeCompleteGame rules evalSource pgn gameId = .ok r) :
    ∃ front, r.rawOutput = String.intercalate "\n" (front ++ ["",
      if hasBlundersScan (r.moveEvaluations.map (fun x => x.evaluationFloat))
      then blunderLine else cleanLine]) := by
  unfold analyzeCompleteGame at h
  dsimp only at h
  cases hloop : analyzeLoop evalSource rules.isLegal
      (List.take (min (extractGameMoves rules pgn).length 30)
        (extractGameMoves rules pgn)) 0 [] with
  | error e =>
    simp only [hloop] at h
    exact Except.noConfusion h
  | ok pr =>
    obtain ⟨recs, lns⟩ := pr
    simp only [hloop] at h
    injection h with h
    subst h
    exact ⟨("📂 Game: " ++ (findEventName pgn).getD "Chess Game") :: lns,
      by rw [List.cons_append]⟩

/-- Helper: mapping a function of the index over an enumeration is
mapping it over the index range. -/
theorem enumFrom_map_val {α β : Type} (g : Nat → β) :
    ∀ (l : List α) (n : Nat),
      (List.enumFrom n l).map (fun pr => g pr.1)
        = (List.range l.length).map (fun j => g (n + j)) := by
  intro l
  induction l with
  | nil => intro n; rfl
  | cons x xs ih =>
    intro n
    simp only [List.enumFrom, List.map_cons, List.length_cons]
    rw [map_range_succ_shift (fun j => g (n + j)) xs.length]
    congr 1
    rw [ih (n + 1)]
    apply List.map_congr_left
    intro j _
    have h1 : n + (j + 1) = n + 1 + j := by omega
    rw [h1]

/-- Claim C1 (amended): in the Python `analyze_game`, a move is a blunder
exactly when the unsigned score delta reaches 200 and the played move
differs from the suggested best move; in the TypeScript
`analyzeCompleteGame`, however, the report's blunder flag fires exactly
when some pair of consecutive recorded evaluations differs by more than
1.0 pawn — the suggested best move plays no role there, and the summary
line is chosen solely by that scan. -/
theorem c1_blunder_rule :
    (∀ (b a : ℤ) (played best : String),
      pyBlunderCheck (some b) (some a) played best = true
        ↔ (200 ≤ |b - a| ∧ played ≠ best)) ∧
    (∀ l : List ℚ, hasBlundersScan l = true
        ↔ ∃ i, i + 1 < l.length ∧ 1 < |l.getD (i + 1) 0 - l.getD i 0|) ∧
    (∀ (rules : RulesCap) (evalSource : Nat → Except Unit StockfishApiAnalysis)
        (pgn gameId : String) (r : GameAnalysisResult),
      analyzeCompleteGame rules evalSource pgn gameId = .ok r →
      ∃ front, r.rawOutput = String.intercalate "\n" (front ++ ["",
        if hasBlundersScan (r.moveEvaluations.map (fun x => x.evaluationFloat))
        then blunderLine else cleanLine])) := by
  refine ⟨?_, hasBlundersScan_iff, analyzeCompleteGame_rawOutput⟩
  intro b a played best
  simp [pyBlunderCheck, Bool.and_eq_true, decide_eq_true_eq]

unseal Rat.mul Rat.add Rat.sub Rat.inv in
/-- Witness for C1 (amended): the Python rule at scores +150/−150, and the
final transcript line of a concrete clean one-move run. -/
theorem c1_blunder_rule_witness :
    (pyBlunderCheck (some 150) (some (-150)) "Qf3" "Nf3" = true
      ↔ (200 ≤ |(150 : ℤ) - (-150)| ∧ "Qf3" ≠ "Nf3")) ∧
    ∃ front,
      ("📂 Game: Chess Game\nMove 1: d4     | Eval: +1.00\n\n" ++ cleanLine)
        = String.intercalate "\n" (front ++ ["",
            if hasBlundersScan
              (([⟨1, "d4     |", 100, 1, none, some "d4"⟩] : List MoveEval).map
                (fun x => x.evaluationFloat))
            then blunderLine else cleanLine]) :=
  ⟨c1_blunder_rule.1 150 (-150) "Qf3" "Nf3",
   c1_blunder_rule.2.2 ⟨fun _ => some ["d4"], fun _ _ => true⟩
     (fun _ => .ok ⟨true, 1, none, "d4"⟩) "p" "g"
     ⟨"g", "p", [⟨1, "d4     |", 100, 1, none, some "d4"⟩],
       "📂 Game: Chess Game\nMove 1: d4     | Eval: +1.00\n\n" ++ cleanLine, 1⟩
     (by decide)⟩

unseal Rat.mul Rat.add Rat.sub Rat.inv in
/-- Counterexample to C1 as stated: a two-move run in which the second
played move `e5` is exactly the best move suggested for the position it
was played from (record 1's `bestMove`), with evaluations +1.50 → −1.50
(delta 300 centipawns): the claim says this is never a blunder, yet the
analyzer's report ends with the blunder warning, because the scan never
consults the suggested move. -/
theorem c1_counterexample :
    extractGameMoves ⟨fun _ => some ["e4", "e5"], fun _ _ => true⟩ "g"
      = ["e4", "e5"] ∧
    (analyzeCompleteGame ⟨fun _ => some ["e4", "e5"], fun _ _ => true⟩
        (fun i => if i = 0 then .ok ⟨true, 3/2, none, "e5"⟩
                  else .ok ⟨true, -(3/2), none, "Qf3"⟩) "g" "id").map
        (fun r => r.moveEvaluations.map (fun x => x.bestMove))
      = .ok [some "e5", some "Qf3"] ∧
    (analyzeCompleteGame ⟨fun _ => some ["e4", "e5"], fun _ _ => true⟩
        (fun i => if i = 0 then .ok ⟨true, 3/2, none, "e5"⟩
                  else .ok ⟨true, -(3/2), none, "Qf3"⟩) "g" "id").map
        (fun r => r.rawOutput)
      = .ok ("📂 Game: Chess Game\nMove 1: e4     | Eval: +1.50\nMove 2: e5     | Eval: -1.50\n\n"
          ++ blunderLine) :=
  ⟨by decide, by decide, by decide⟩

/-- Claim C2: a run with zero successfully evaluated moves (here: a text
on which structured parsing fails and the fallback recovers nothing)
still returns the clean-game transcript `✅ No major evaluation drops
detected.` — identical to a genuinely clean game, with no distinct
reason. -/
theorem c2_zero_moves_clean_summary :
    analyzeCompleteGame ⟨fun _ => none, fun _ _ => false⟩
        (fun _ => .error ()) "???" "g1"
      = .ok ⟨"g1", "???", [], "📂 Game: Chess Game\n\n" ++ cleanLine, 0⟩ ∧
    "📂 Game: Chess Game\n\n" ++ cleanLine
      = "📂 Game: Chess Game\n\n✅ No major evaluation drops detected." :=
  ⟨by decide, by decide⟩

/-- Claim C3 (amended): the bounded mate sentinel exists only in the
Python analyzers' evaluation step — the first script maps any mate to
exactly ±100.0 pawns (the ±10000-centipawn sentinel) and a centipawn
score to its pawn value — while the TypeScript analyzer performs no mate
normalization at all: the values entering its delta comparison are
exactly the adapter's raw per-ply `evaluation` floats, whatever the
`mate` fields say. -/
theorem c3_mate_normalization :
    (∀ n : ℤ, 0 < n → script1Normalize (.mateIn n) = 100) ∧
    (∀ n : ℤ, ¬0 < n → script1Normalize (.mateIn n) = -100) ∧
    (∀ n : ℤ, |script1Normalize (.mateIn n)| = 100) ∧
    (∀ x : ℤ, script1Normalize (.cp x) = (x : ℚ) / 100) ∧
    (∀ (rules : RulesCap) (evalSource : Nat → Except Unit StockfishApiAnalysis)
        (a : Nat → StockfishApiAnalysis) (pgn gameId : String),
      (∀ j, evalSource j = .ok (a j)) →
      (∀ j, (a j).success = true) →
      (∀ h m, rules.isLegal h m = true) →
      ∃ r, analyzeCompleteGame rules evalSource pgn gameId = .ok r ∧
        r.moveEvaluations.map (fun x => x.evaluationFloat)
          = (List.range (min (extractGameMoves rules pgn).length 30)).map
              (fun j => (a j).evaluation)) := by
  refine ⟨?_, ?_, ?_, ?_, ?_⟩
  · intro n hn
    simp [script1Normalize, hn]
  · intro n hn
    simp [script1Normalize, hn]
  · intro n
    by_cases hn : 0 < n <;> simp [script1Normalize, hn]
  · intro x
    rfl
  · intro rules evalSource a pgn gameId hsrc hsucc hleg
    have hloop := analyzeLoop_all_ok evalSource rules.isLegal a hsrc hsucc hleg
      (List.take (min (extractGameMoves rules pgn).length 30)
        (extractGameMoves rules pgn)) 0 []
    cases hrun : analyzeCompleteGame rules evalSource pgn gameId with
    | error e =>
      exfalso
      unfold analyzeCompleteGame at hrun
      dsimp only at hrun
      rw [hloop] at hrun
      exact Except.noConfusion hrun
    | ok r =>
      refine ⟨r, rfl, ?_⟩
      unfold analyzeCompleteGame at hrun
      dsimp only at hrun
      rw [hloop] at hrun
      injection hrun with hrun
      subst hrun
      dsimp only
      rw [List.map_map]
      have hcomp : ((fun x : MoveEval => x.evaluationFloat) ∘ (fun pr : Nat × String =>
          (⟨pr.1 / 2 + 1, padEnd7 pr.2 ++ "|",
            round ((a pr.1).evaluation * 100), (a pr.1).evaluation,
            mateTruthy (a pr.1).mate, some (a pr.1).bestmove⟩ : MoveEval)))
          = fun pr : Nat × String => (a pr.1).evaluation := rfl
      rw [hcomp]
      rw [enumFrom_map_val (fun j => (a j).evaluation)]
      have hlen : (List.take (min (extractGameMoves rules pgn).length 30)
          (extractGameMoves rules pgn)).length
          = min (extractGameMoves rules pgn).length 30 := by
        rw [List.length_take]
        omega
      rw [hlen]
      apply List.map_congr_left
      intro j _
      rw [Nat.zero_add]

unseal Rat.mul Rat.add Rat.sub Rat.inv in
/-- Witness for C3 (amended): mate-in-5 and mated-in-4 map to ±100.0 in
the first Python script, and a concrete one-move TypeScript run whose
position is a mate-in-4 still records the raw float 0.7 for the delta
scan. -/
theorem c3_mate_normalization_witness :
    script1Normalize (.mateIn 5) = 100 ∧
    script1Normalize (.mateIn (-4)) = -100 ∧
    ∃ r, analyzeCompleteGame ⟨fun _ => some ["e4"], fun _ _ => true⟩
        (fun _ => .ok ⟨true, 7/10, some 4, "m"⟩) "p" "g" = .ok r ∧
      r.moveEvaluations.map (fun x => x.evaluationFloat)
        = (List.range (min (extractGameMoves
            ⟨fun _ => some ["e4"], fun _ _ => true⟩ "p").length 30)).map
            (fun j => ((fun _ : Nat => (⟨true, 7/10, some 4, "m"⟩
              : StockfishApiAnalysis)) j).evaluation) :=
  ⟨c3_mate_normalization.1 5 (by decide),
   c3_mate_normalization.2.1 (-4) (by decide),
   c3_mate_normalization.2.2.2.2 ⟨fun _ => some ["e4"], fun _ _ => true⟩
     (fun _ => .ok ⟨true, 7/10, some 4, "m"⟩)
     (fun _ => ⟨true, 7/10, some 4, "m"⟩) "p" "g"
     (fun _ => rfl) (fun _ => rfl) (fun _ _ => rfl)⟩

unseal Rat.mul Rat.add Rat.sub Rat.inv in
/-- Counterexample to C3 as stated: a run whose two positions are
mate-in-2 for one side and mate-in-3 for the other carries the raw mate
distances in the records, and its delta comparison uses the raw floats
0.3 and 0.5 — so the report says clean, where any ±10000-centipawn
normalization of the two opposite-sign mates would have produced a delta
of 20000 and the blunder warning. -/
theorem c3_counterexample :
    (analyzeCompleteGame ⟨fun _ => some ["e4", "e5"], fun _ _ => true⟩
        (fun i => if i = 0 then .ok ⟨true, 3/10, some 2, "m"⟩
                  else .ok ⟨true, 1/2, some (-3), "m"⟩) "g" "id").map
        (fun r => r.moveEvaluations.map (fun x => x.mate))
      = .ok [some 2, some (-3)] ∧
    (analyzeCompleteGame ⟨fun _ => some ["e4", "e5"], fun _ _ => true⟩
        (fun i => if i = 0 then .ok ⟨true, 3/10, some 2, "m"⟩
                  else .ok ⟨true, 1/2, some (-3), "m"⟩) "g" "id").map
        (fun r => r.rawOutput)
      = .ok ("📂 Game: Chess Game\nMove 1: e4     | Eval: #+2\nMove 2: e5     | Eval: #-3\n\n"
          ++ cleanLine) :=
  ⟨by decide, by decide⟩

/-- Helper: the replay keeps an initial run of the candidates, and when
it stops early the very next candidate is the one the rules capability
rejected from the validated position. -/
theorem replayGo_spec (isLegal : List String → String → Bool) :
    ∀ (cs hist : List String),
      (replayGo isLegal hist cs).length ≤ cs.length ∧
      cs.take (replayGo isLegal hist cs).length = replayGo isLegal hist cs ∧
      ((replayGo isLegal hist cs).length < cs.length →
        isLegal (hist ++ replayGo isLegal hist cs)
          (cs.getD (replayGo isLegal hist cs).length "") = false) := by
  intro cs
  induction cs with
  | nil =>
    intro hist
    refine ⟨Nat.le_refl _, rfl, ?_⟩
    intro h
    exact absurd h (by simp [replayGo])
  | cons c rest ih =>
    intro hist
    by_cases hc : isLegal hist c = true
    · simp only [replayGo, if_pos hc]
      obtain ⟨hlen, htake, hrej⟩ := ih (hist ++ [c])
      refine ⟨by simpa using hlen, ?_, ?_⟩
      · simp only [List.length_cons, List.take_succ_cons]
        rw [htake]
      · intro hlt
        simp only [List.length_cons] at hlt
        have hlt2 : (replayGo isLegal (hist ++ [c]) rest).length < rest.length := by
          omega
        have := hrej hlt2
        simpa [List.append_assoc] using this
    · simp only [replayGo, if_neg hc]
      refine ⟨Nat.zero_le _, rfl, ?_⟩
      intro _
      simpa using hc

/-- Claim C6: on the header-plus-moves raw text, the fallback scan
recovers exactly `["e4","e5","Nf3","Nc6"]` (move numbers and the result
token excluded); for any rules capability accepting those four moves in
order from the initial position, the replay keeps them all; in general
the replay keeps an initial run of the candidates and stops exactly at
the first rejected one; and with structured parsing failing the overall
run still succeeds, even when nothing is recovered. -/
theorem c6_fallback :
    extractCandidates "[Event \"Test\"]\n[Site \"?\"]\n\n1. e4 e5 2. Nf3 Nc6 1-0"
      = ["e4", "e5", "Nf3", "Nc6"] ∧
    (∀ leg : List String → String → Bool,
      leg [] "e4" = true → leg ["e4"] "e5" = true →
      leg ["e4", "e5"] "Nf3" = true → leg ["e4", "e5", "Nf3"] "Nc6" = true →
      replayValidate leg
          (extractCandidates
            "[Event \"Test\"]\n[Site \"?\"]\n\n1. e4 e5 2. Nf3 Nc6 1-0")
        = ["e4", "e5", "Nf3", "Nc6"]) ∧
    (∀ (leg : List String → String → Bool) (cands : List String),
      (replayValidate leg cands).length ≤ cands.length ∧
      cands.take (replayValidate leg cands).length = replayValidate leg cands ∧
      ((replayValidate leg cands).length < cands.length →
        leg (replayValidate leg cands)
          (cands.getD (replayValidate leg cands).length "") = false)) ∧
    (∀ (pgn : String) (evalSource : Nat → Except Unit StockfishApiAnalysis)
        (gameId : String),
      ∃ r, analyzeCompleteGame ⟨fun _ => none, fun _ _ => false⟩
          evalSource pgn gameId = .ok r ∧ r.moveEvaluations = []) := by
  refine ⟨by decide, ?_, ?_, ?_⟩
  · intro leg h1 h2 h3 h4
    have hc : extractCandidates
        "[Event \"Test\"]\n[Site \"?\"]\n\n1. e4 e5 2. Nf3 Nc6 1-0"
        = ["e4", "e5", "Nf3", "Nc6"] := by decide
    rw [hc]
    simp [replayValidate, replayGo, h1, h2, h3, h4]
  · intro leg cands
    have h := replayGo_spec leg cands []
    simpa [replayValidate] using h
  · intro pgn evalSource gameId
    have hmoves : extractGameMoves ⟨fun _ => none, fun _ _ => false⟩ pgn = [] := by
      unfold extractGameMoves replayValidate
      cases extractCandidates pgn with
      | nil => rfl
      | cons c cs => simp [replayGo]
    cases hrun : analyzeCompleteGame ⟨fun _ => none, fun _ _ => false⟩
        evalSource pgn gameId with
    | error e =>
      exfalso
      unfold analyzeCompleteGame at hrun
      dsimp only at hrun
      rw [hmoves] at hrun
      simp only [analyzeLoop] at hrun
      exact Except.noConfusion hrun
    | ok r =>
      refine ⟨r, rfl, ?_⟩
      unfold analyzeCompleteGame at hrun
      dsimp only at hrun
      rw [hmoves] at hrun
      simp only [analyzeLoop] at hrun
      injection hrun with hrun
      subst hrun
      rfl

/-- Witness for C6: a rules capability accepting everything keeps the
full recovered list. -/
theorem c6_fallback_witness :
    replayValidate (fun _ _ => true)
        (extractCandidates
          "[Event \"Test\"]\n[Site \"?\"]\n\n1. e4 e5 2. Nf3 Nc6 1-0")
      = ["e4", "e5", "Nf3", "Nc6"] :=
  c6_fallback.2.1 (fun _ _ => true) rfl rfl rfl rfl

/-- Claim C7 (amended): analyzing the five-move list
`["e4","e5","Nf3","Nc6","Bb5"]` with an always-successful evaluation
source yields exactly 5 records in ply order whose `moveNumber` fields
are the full-move numbers `⌊i/2⌋+1 = 1,1,2,2,3` (the ply numbers 1..5
appear only in the transcript lines), and whose recorded floats are
exactly the source's five evaluations — the only input to the blunder
flag and its fixed 1.0 threshold. -/
theorem c7_five_moves (rules : RulesCap)
    (evalSource : Nat → Except Unit StockfishApiAnalysis)
    (a : Nat → StockfishApiAnalysis) (pgn gameId : String)
    (hload : rules.loadPgn pgn = some ["e4", "e5", "Nf3", "Nc6", "Bb5"])
    (hleg : ∀ h m, rules.isLegal h m = true)
    (hsrc : ∀ j, evalSource j = .ok (a j))
    (hsucc : ∀ j, (a j).success = true) :
    ∃ r, analyzeCompleteGame rules evalSource pgn gameId = .ok r ∧
      r.totalMoves = 5 ∧
      r.moveEvaluations.length = 5 ∧
      r.moveEvaluations.map (fun x => x.moveNumber) = [1, 1, 2, 2, 3] ∧
      r.moveEvaluations.map (fun x => x.evaluationFloat)
        = [(a 0).evaluation, (a 1).evaluation, (a 2).evaluation,
           (a 3).evaluation, (a 4).evaluation] := by
  have hm : extractGameMoves rules pgn = ["e4", "e5", "Nf3", "Nc6", "Bb5"] := by
    unfold extractGameMoves
    rw [hload]
  have hloop := analyzeLoop_all_ok evalSource rules.isLegal a hsrc hsucc hleg
    (List.take (min (extractGameMoves rules pgn).length 30)
      (extractGameMoves rules pgn)) 0 []
  cases hrun : analyzeCompleteGame rules evalSource pgn gameId with
  | error e =>
    exfalso
    unfold analyzeCompleteGame at hrun
    dsimp only at hrun
    rw [hloop] at hrun
    exact Except.noConfusion hrun
  | ok r =>
    refine ⟨r, rfl, ?_⟩
    unfold analyzeCompleteGame at hrun
    dsimp only at hrun
    rw [hloop] at hrun
    injection hrun with hrun
    subst hrun
    rw [hm]
    refine ⟨rfl, ?_, ?_, ?_⟩ <;>
      simp [List.enumFrom, List.take, hm]

unseal Rat.mul Rat.add Rat.sub Rat.inv in
/-- Witness for C7 (amended): the five-move list with a constant
successful source, instantiated concretely. -/
theorem c7_five_moves_witness :
    ∃ r, analyzeCompleteGame
        ⟨fun _ => some ["e4", "e5", "Nf3", "Nc6", "Bb5"], fun _ _ => true⟩
        (fun _ => .ok ⟨true, 0, none, "x"⟩) "p" "g" = .ok r ∧
      r.totalMoves = 5 ∧
      r.moveEvaluations.length = 5 ∧
      r.moveEvaluations.map (fun x => x.moveNumber) = [1, 1, 2, 2, 3] ∧
      r.moveEvaluations.map (fun x => x.evaluationFloat)
        = [(0 : ℚ), 0, 0, 0, 0] :=
  c7_five_moves
    ⟨fun _ => some ["e4", "e5", "Nf3", "Nc6", "Bb5"], fun _ _ => true⟩
    (fun _ => .ok ⟨true, 0, none, "x"⟩)
    (fun _ => ⟨true, 0, none, "x"⟩) "p" "g"
    rfl (fun _ _ => rfl) (fun _ => rfl) (fun _ => rfl)

unseal Rat.mul Rat.add Rat.sub Rat.inv in
/-- Counterexample to C7 as stated: the five records of the concrete run
carry `moveNumber` values `1,1,2,2,3` — full-move numbers, not the ply
indices `1..5` the claim asserts. -/
theorem c7_counterexample :
    (analyzeCompleteGame
        ⟨fun _ => some ["e4", "e5", "Nf3", "Nc6", "Bb5"], fun _ _ => true⟩
        (fun _ => .ok ⟨true, 0, none, "x"⟩) "p" "g").map
        (fun r => r.moveEvaluations.map (fun x => x.moveNumber))
      = .ok [1, 1, 2, 2, 3] ∧
    ([1, 1, 2, 2, 3] : List Nat) ≠ [1, 2, 3, 4, 5] :=
  ⟨by decide, by decide⟩
